import Mathlib

/-!
Verification of the PUB LOG TAB decoding pipeline.

The definitions below are a shallow embedding of the two Python source files
of the repository: `decompress_publog.py` (container sniffing, marker-based
decoding, text-likelihood fallback extraction) and `publog_decompress.py`
(table consolidation and join).  Bytes are modelled as `Nat` values below 256,
byte buffers as `List Nat`, and Python exceptions as `Except` values.
-/

/-- The 4-byte container signature `IMD2` (bytes of the ASCII string). -/
def imd2Sig : List Nat := [73, 77, 68, 50]

/-- The scan loop of `_decompress_imd2`, presented on the suffix of the
buffer that starts at the current index `i`.  Mirrors the
`while i < len(data)` loop: when the byte at `i` is `0x00`, the byte at
`i+1` lies strictly between `0` and `0x80`, and a byte exists at `i+2`
(the suffix has at least three elements), a run of `data[i+1]` copies of
`data[i+2]` is appended and `i` advances by 3 (three elements are
consumed); otherwise `data[i]` is copied verbatim and `i` advances by 1.
All failure branches of the nested `if`s in the source fall through to the
verbatim copy. -/
def scanRLE : List Nat → List Nat
  | [] => []
  | [b1] => [b1]
  | [b1, b2] => b1 :: scanRLE [b2]
  | b1 :: b2 :: b3 :: rest =>
    if b1 = 0 ∧ 0 < b2 ∧ b2 < 128 then List.replicate b2 b3 ++ scanRLE rest
    else b1 :: scanRLE (b2 :: b3 :: rest)

/-- The scan loop of `_decompress_imd2` viewed at a start index: scanning
`data` from position `i` is scanning the suffix `data.drop i`. -/
def decodeFrom (data : List Nat) (i : Nat) : List Nat :=
  scanRLE (data.drop i)

/-- `_decompress_imd2`: rejects buffers shorter than 8 bytes with the
`InvalidContainer` error, skips an 8-byte header when the buffer starts with
the signature, and otherwise scans from offset 0. -/
def decompressIMD2 (data : List Nat) : Except String (List Nat) :=
  if data.length < 8 then Except.error "Data too short to be valid IMD2"
  else Except.ok (decodeFrom data (if data.take 4 = imd2Sig then 8 else 0))

/-- The decode portion of `decompress_file`: the first 4 bytes are read as the
header; when they differ from the signature a warning is printed (first
component `true`) and the file handle is rewound, so `_decompress_imd2`
receives the whole file; when they equal the signature the handle is not
rewound, so `_decompress_imd2` receives the file with its first 4 bytes
removed. -/
def decompressFilePipeline (file : List Nat) : Bool × Except String (List Nat) :=
  (decide (file.take 4 ≠ imd2Sig),
   decompressIMD2 (if file.take 4 = imd2Sig then file.drop 4 else file))

/-- A 12-byte container: signature, then the bytes
`00 03 41 42 42 42 42 42`.  Under the spec the payload is the last 4 bytes
(`42 42 42 42`); the pipeline instead decodes from file offset 4. -/
def c1file : List Nat := imd2Sig ++ [0, 3, 65, 66, 66, 66, 66, 66]

/-- C1: for a file carrying the signature, the spec says decoding starts at
offset 8 of the original file (yielding `BBBB` here).  The pipeline strips
the signature before calling `_decompress_imd2`, which then cannot re-detect
it, so scanning starts at file offset 4 and the 4 bytes `00 03 41 42`
(the position of the uninspected length field) are decoded as payload,
yielding `AAABBBBB`.  The second conjunct evaluates the spec-mandated
behaviour on the same file for contrast. -/
theorem c1_pipeline_offset_eval :
    decompressFilePipeline c1file = (false, Except.ok [65, 65, 65, 66, 66, 66, 66, 66]) ∧
    decodeFrom c1file 8 = [66, 66, 66, 66] := by
  constructor <;> rfl

/-- Expanding one element of a suffix: for an in-range index, the suffix at
`i` starts with the byte at `i`. -/
theorem drop_eq_cons_getD (data : List Nat) (i : Nat) (h : i < data.length) :
    data.drop i = data.getD i 0 :: data.drop (i + 1) := by
  rw [List.drop_eq_getElem_cons h]
  congr 1
  simp [List.getD_eq_getElem?_getD, List.getElem?_eq_getElem, h]

/-- C2: the scan rule of the Marker-Based Decoder, at any reachable position
`i`: a run is expanded exactly when the byte at `i` is zero, the byte at
`i+1` is strictly between `0x00` and `0x80`, and a byte exists at `i+2`;
in every other case the byte at `i` is copied verbatim and `i` advances
by 1. -/
theorem c2_scan_rule (data : List Nat) (i : Nat) (h : i < data.length) :
    (data.getD i 0 = 0 ∧ 0 < data.getD (i + 1) 0 ∧ data.getD (i + 1) 0 < 128 ∧
        i + 2 < data.length →
      decodeFrom data i =
        List.replicate (data.getD (i + 1) 0) (data.getD (i + 2) 0) ++ decodeFrom data (i + 3)) ∧
    (¬ (data.getD i 0 = 0 ∧ 0 < data.getD (i + 1) 0 ∧ data.getD (i + 1) 0 < 128 ∧
        i + 2 < data.length) →
      decodeFrom data i = data.getD i 0 :: decodeFrom data (i + 1)) := by
  constructor
  · rintro ⟨h0, h1, h2, h3⟩
    have hi1 : i + 1 < data.length := by omega
    rw [decodeFrom, drop_eq_cons_getD data i h, drop_eq_cons_getD data (i + 1) hi1,
      drop_eq_cons_getD data (i + 2) h3, scanRLE]
    rw [if_pos ⟨h0, h1, h2⟩]
    rfl
  · intro hnot
    rcases Nat.lt_or_ge (i + 2) data.length with h3 | h3
    · have hi1 : i + 1 < data.length := by omega
      rw [decodeFrom, drop_eq_cons_getD data i h, drop_eq_cons_getD data (i + 1) hi1,
        drop_eq_cons_getD data (i + 2) h3, scanRLE]
      rw [if_neg (fun hc => hnot ⟨hc.1, hc.2.1, hc.2.2, h3⟩)]
      rw [decodeFrom, drop_eq_cons_getD data (i + 1) hi1, drop_eq_cons_getD data (i + 2) h3]
    · rcases Nat.lt_or_ge (i + 1) data.length with h1 | h1
      · have hd2 : data.drop (i + 2) = [] := List.drop_eq_nil_of_le (by omega)
        rw [decodeFrom, drop_eq_cons_getD data i h, drop_eq_cons_getD data (i + 1) h1, hd2,
          scanRLE, decodeFrom, drop_eq_cons_getD data (i + 1) h1, hd2]
      · have hd1 : data.drop (i + 1) = [] := List.drop_eq_nil_of_le (by omega)
        rw [decodeFrom, drop_eq_cons_getD data i h, hd1, scanRLE, decodeFrom, hd1, scanRLE]

/-- Witness for C2: on `[0, 2, 7, 5]` at position 0 the run branch fires and
produces two copies of `7` before the rest of the scan. -/
theorem c2_scan_rule_witness :
    decodeFrom [0, 2, 7, 5] 0 =
      List.replicate 2 7 ++ decodeFrom [0, 2, 7, 5] 3 :=
  (c2_scan_rule [0, 2, 7, 5] 0 (by decide)).1 (by decide)

/-- C3: `_decompress_imd2` succeeds exactly on input buffers of length at
least 8; in particular every shorter buffer whose first 4 bytes equal the
signature is rejected with the `InvalidContainer` error before any
scanning. -/
theorem c3_length_gate (data : List Nat) :
    ((∃ out, decompressIMD2 data = Except.ok out) ↔ 8 ≤ data.length) ∧
    (data.take 4 = imd2Sig → data.length < 8 →
      decompressIMD2 data = Except.error "Data too short to be valid IMD2") := by
  refine ⟨⟨fun hex => ?_, fun hlen => ?_⟩, fun _ hshort => ?_⟩
  · by_contra hlt
    obtain ⟨out, hout⟩ := hex
    rw [decompressIMD2, if_pos (by omega)] at hout
    exact Except.noConfusion hout
  · exact ⟨_, by rw [decompressIMD2, if_neg (by omega)]⟩
  · rw [decompressIMD2, if_pos hshort]

/-- Witness for C3: a 6-byte buffer starting with the signature is rejected
with the `InvalidContainer` error. -/
theorem c3_length_gate_witness :
    decompressIMD2 (imd2Sig ++ [0, 0]) = Except.error "Data too short to be valid IMD2" :=
  (c3_length_gate (imd2Sig ++ [0, 0])).2 (by decide) (by decide)

/-- C5: the run-marker payload `00 03 41` decodes to `AAA`: directly under
the scan loop, and through `_decompress_imd2` on a full container whose
payload at offset 8 is those three bytes. -/
theorem c5_run_marker_example :
    decodeFrom [0, 3, 65] 0 = [65, 65, 65] ∧
    decompressIMD2 (imd2Sig ++ [0, 0, 0, 3] ++ [0, 3, 65]) =
      Except.ok [65, 65, 65] := by
  constructor <;> rfl

/-!
The Text-Likelihood Extractor (`_simple_extract` together with
`_looks_like_text_data`).  The division computing the printable ratio is
the one operation in this path that can raise (`ZeroDivisionError` on an
empty decoded string); the source wraps it in a `try`/`except` returning
`False`, which the definitions below reproduce with `Except`.
-/

/-- `bytes.isalnum()` on a single byte: ASCII letters and digits. -/
def pyByteIsAlnum (b : Nat) : Bool :=
  (48 ≤ b && b ≤ 57) || (65 ≤ b && b ≤ 90) || (97 ≤ b && b ≤ 122)

/-- CPython `bytes.decode("utf-8", errors="ignore")`, returning the list of
decoded code points.  Invalid sequences are skipped following the maximal
valid subpart rule: an invalid lead byte is dropped and decoding resumes at
the next byte; a valid lead whose continuation byte is out of range drops
the bytes consumed so far and resumes at the offending byte; a sequence
truncated by the end of input is dropped. -/
def utf8DecodeIgnore : List Nat → List Nat
  | [] => []
  | b :: bs =>
    if b < 128 then b :: utf8DecodeIgnore bs
    else if b < 194 then
      -- stray continuation byte (0x80-0xBF) or overlong lead (0xC0, 0xC1)
      utf8DecodeIgnore bs
    else if b < 224 then
      -- two-byte sequence, lead 0xC2-0xDF
      match bs with
      | [] => []
      | b2 :: bs2 =>
        if 128 ≤ b2 && b2 < 192 then
          ((b - 192) * 64 + (b2 - 128)) :: utf8DecodeIgnore bs2
        else utf8DecodeIgnore (b2 :: bs2)
    else if b < 240 then
      -- three-byte sequence, lead 0xE0-0xEF; the first continuation range
      -- excludes overlong forms (lead 0xE0) and surrogates (lead 0xED)
      match bs with
      | [] => []
      | b2 :: bs2 =>
        if (if b = 224 then 160 ≤ b2 && b2 < 192
            else if b = 237 then 128 ≤ b2 && b2 < 160
            else 128 ≤ b2 && b2 < 192) then
          match bs2 with
          | [] => []
          | b3 :: bs3 =>
            if 128 ≤ b3 && b3 < 192 then
              ((b - 224) * 4096 + (b2 - 128) * 64 + (b3 - 128)) :: utf8DecodeIgnore bs3
            else utf8DecodeIgnore (b3 :: bs3)
        else utf8DecodeIgnore (b2 :: bs2)
    else if b < 245 then
      -- four-byte sequence, lead 0xF0-0xF4; the first continuation range
      -- excludes overlong forms (lead 0xF0) and values above U+10FFFF (0xF4)
      match bs with
      | [] => []
      | b2 :: bs2 =>
        if (if b = 240 then 144 ≤ b2 && b2 < 192
            else if b = 244 then 128 ≤ b2 && b2 < 144
            else 128 ≤ b2 && b2 < 192) then
          match bs2 with
          | [] => []
          | b3 :: bs3 =>
            if 128 ≤ b3 && b3 < 192 then
              match bs3 with
              | [] => []
              | b4 :: bs4 =>
                if 128 ≤ b4 && b4 < 192 then
                  ((b - 240) * 262144 + (b2 - 128) * 4096 + (b3 - 128) * 64 + (b4 - 128)) ::
                    utf8DecodeIgnore bs4
                else utf8DecodeIgnore (b4 :: bs4)
            else utf8DecodeIgnore (b3 :: bs3)
        else utf8DecodeIgnore (b2 :: bs2)
    else
      -- invalid lead byte 0xF5-0xFF
      utf8DecodeIgnore bs

/-- `str.isalnum()` on one code point.  Exact on the Basic Latin and Latin-1
ranges (ASCII alphanumerics; the Latin-1 letters, superscripts and vulgar
fractions); code points above U+00FF, none of which occur in the buffers
examined in this development, are classified as alphanumeric. -/
def pyCharIsAlnum (c : Nat) : Bool :=
  if c < 256 then
    (48 ≤ c && c ≤ 57) || (65 ≤ c && c ≤ 90) || (97 ≤ c && c ≤ 122) ||
    c == 170 || c == 178 || c == 179 || c == 181 || c == 185 || c == 186 ||
    c == 188 || c == 189 || c == 190 ||
    (192 ≤ c && c ≤ 255 && c != 215 && c != 247)
  else true

/-- `str.isprintable()` on one code point.  Exact on the Basic Latin and
Latin-1 ranges (printable ASCII; Latin-1 minus the C1 controls, no-break
space and soft hyphen); code points above U+00FF, none of which occur in
the buffers examined in this development, are classified as printable. -/
def pyCharIsPrintable (c : Nat) : Bool :=
  if c < 256 then
    (32 ≤ c && c ≤ 126) || (161 ≤ c && c ≤ 255 && c != 173)
  else true

/-- The `try` body of `_looks_like_text_data`: decode the sample with lossy
UTF-8, require a tab, an alphanumeric character, and a printable ratio
strictly above 0.8.  The ratio divides by the decoded length; when the
decoded text is empty this division raises (`Except.error`).  The
comparison `count / len > 0.8` on Python floats coincides with
`5 * count > 4 * len` for the lengths that occur here (at most 100). -/
def looksLikeTextBody (bs : List Nat) : Except Unit Bool :=
  let text := utf8DecodeIgnore bs
  let hasTabs := text.contains 9
  let hasAlnum := text.any pyCharIsAlnum
  if text.length = 0 then Except.error ()
  else
    Except.ok (hasTabs && hasAlnum &&
      decide (5 * text.countP (fun c => pyCharIsPrintable c || c == 9 || c == 10 || c == 13) >
        4 * text.length))

/-- `_looks_like_text_data` with its `try`/`except` returning `False`: the
division error is caught and never propagates. -/
def looksLikeTextDataE (bs : List Nat) : Except Unit Bool :=
  match looksLikeTextBody bs with
  | Except.ok b => Except.ok b
  | Except.error _ => Except.ok false

/-- The Boolean value computed by `_looks_like_text_data`. -/
def looksLikeTextData (bs : List Nat) : Bool :=
  match looksLikeTextDataE bs with
  | Except.ok b => b
  | Except.error _ => false

/-- The scan loop of `_simple_extract`: for `i` in
`range(min(1024, len(data)))`, when the byte at `i` is ASCII alphanumeric
or one of tab, line feed, carriage return, space, and `i + 100` is strictly
below the buffer length, the 100-byte window at `i` is tested; on success
the loop breaks with start position `i`.  If the loop completes, the start
position keeps its initial value 0.  Errors from the window test would
propagate, which is why the loop lives in `Except`. -/
def findStartFromE (data : List Nat) (i : Nat) : Except Unit Nat :=
  if _h : i < min 1024 data.length then
    if (pyByteIsAlnum (data.getD i 0) || [9, 10, 13, 32].contains (data.getD i 0)) &&
        decide (i + 100 < data.length) then
      match looksLikeTextDataE ((data.drop i).take 100) with
      | Except.error e => Except.error e
      | Except.ok true => Except.ok i
      | Except.ok false => findStartFromE data (i + 1)
    else findStartFromE data (i + 1)
  else Except.ok 0
termination_by min 1024 data.length - i
decreasing_by all_goals omega

/-- The cleanup loop of `_simple_extract`: null bytes are dropped, control
bytes below 0x20 other than tab, line feed and carriage return are
dropped, everything else is kept. -/
def cleanBytes (bs : List Nat) : List Nat :=
  bs.filter (fun b =>
    if b = 0 then false
    else if b < 32 && !([9, 10, 13].contains b) then false
    else true)

/-- `_simple_extract` without its file system wrapper: find the start
position, drop everything before it, clean the remainder. -/
def simpleExtractE (data : List Nat) : Except Unit (List Nat) :=
  match findStartFromE data 0 with
  | Except.error e => Except.error e
  | Except.ok s => Except.ok (cleanBytes (data.drop s))

/-- The condition selecting the start position, as one predicate on a
position: the pre-filter on the byte at `i`, the window-fits check
`i + 100 < length`, and the text-likelihood test of the 100-byte window. -/
def windowTest (data : List Nat) (i : Nat) : Bool :=
  (pyByteIsAlnum (data.getD i 0) || [9, 10, 13, 32].contains (data.getD i 0)) &&
    decide (i + 100 < data.length) && looksLikeTextData ((data.drop i).take 100)

/-- The start position stated the way the amended specification reads: the
first position in the first 1024 bytes satisfying `windowTest`, defaulting
to 0. -/
def specChosenOffset (data : List Nat) : Nat :=
  ((List.range (min 1024 data.length)).find? (windowTest data)).getD 0

/-- The start position as the claim words it: the first position in the
first 1024 bytes whose 100-byte window passes the text-likelihood test,
with no pre-filter on the byte at the position and no requirement that
`i + 100` be inside the buffer; defaulting to 0. -/
def claimChosenOffset (data : List Nat) : Nat :=
  ((List.range (min 1024 data.length)).find?
    (fun i => looksLikeTextData ((data.drop i).take 100))).getD 0

/-- The catching wrapper always succeeds and returns the Boolean value. -/
theorem looksLikeTextDataE_eq (bs : List Nat) :
    looksLikeTextDataE bs = Except.ok (looksLikeTextData bs) := by
  cases h : looksLikeTextBody bs <;>
    simp [looksLikeTextData, looksLikeTextDataE, h]

/-- The scan loop never errors and returns the first position satisfying
`windowTest` among the remaining candidates, defaulting to 0. -/
theorem findStartFromE_eq :
    ∀ (n : Nat) (data : List Nat) (i : Nat), min 1024 data.length - i = n →
      findStartFromE data i =
        Except.ok (((List.range' i n).find? (windowTest data)).getD 0) := by
  intro n
  induction n with
  | zero =>
    intro data i hn
    rw [findStartFromE]
    rw [dif_neg (by omega)]
    simp
  | succ n ih =>
    intro data i hn
    have hi : i < min 1024 data.length := by omega
    rw [findStartFromE]
    rw [dif_pos hi, looksLikeTextDataE_eq, List.range'_succ]
    by_cases h1 : ((pyByteIsAlnum (data.getD i 0) ||
        [9, 10, 13, 32].contains (data.getD i 0)) && decide (i + 100 < data.length)) = true
    · rw [if_pos h1]
      cases hb : looksLikeTextData ((data.drop i).take 100)
      · have hw : windowTest data i = false := by
          rw [windowTest, h1, hb]
          rfl
        rw [List.find?_cons_of_neg _ (by simp [hw])]
        exact ih data (i + 1) (by omega)
      · have hw : windowTest data i = true := by
          rw [windowTest, h1, hb]
          rfl
        rw [List.find?_cons_of_pos _ hw]
        rfl
    · rw [if_neg h1]
      have hw : windowTest data i = false := by
        rw [windowTest]
        rw [Bool.not_eq_true] at h1
        rw [h1, Bool.false_and]
      rw [List.find?_cons_of_neg _ (by simp [hw])]
      exact ih data (i + 1) (by omega)

/-- The extractor equals: clean everything from the chosen start position,
the position being the first candidate passing `windowTest`. -/
theorem simpleExtractE_eq (data : List Nat) :
    simpleExtractE data = Except.ok (cleanBytes (data.drop (specChosenOffset data))) := by
  rw [simpleExtractE, findStartFromE_eq (min 1024 data.length) data 0 (by omega)]
  rw [specChosenOffset, List.range_eq_range']

/-- C6: the Text-Likelihood Extractor completes without raising on every
input buffer, and on the empty buffer its output is empty. -/
theorem c6_extractor_total :
    (∀ data : List Nat, ∃ out, simpleExtractE data = Except.ok out) ∧
    simpleExtractE [] = Except.ok [] := by
  constructor
  · exact fun data => ⟨_, simpleExtractE_eq data⟩
  · rw [simpleExtractE_eq]
    rfl

/-- Fifty repetitions of the two bytes `a`, tab. -/
def repApat : Nat → List Nat
  | 0 => []
  | n + 1 => 97 :: 9 :: repApat n

/-- A 102-byte buffer: an exclamation mark followed by 101 bytes of plausible
tabular text (`a` and tab alternating, ending in `a`). -/
def ce7 : List Nat := 33 :: (repApat 50 ++ [97])

set_option maxRecDepth 20000 in
/-- C7 counterexample: the claim derives the start position from the window
test alone, which accepts position 0 of `ce7` (its 100-byte window is tab
separated printable text), so the claimed output keeps the leading
exclamation mark.  The extractor also pre-filters on the byte at the
position; `33` (the exclamation mark) is neither alphanumeric nor
whitespace, so the extractor starts at position 1 and its output drops
that byte. -/
theorem c7_offset_rule_counterexample :
    simpleExtractE ce7 = Except.ok (cleanBytes (ce7.drop 1)) ∧
    specChosenOffset ce7 = 1 ∧
    claimChosenOffset ce7 = 0 ∧
    cleanBytes (ce7.drop 0) = ce7 ∧
    cleanBytes (ce7.drop 1) ≠ ce7 := by
  refine ⟨?_, by decide, by decide, by decide, by decide⟩
  rw [simpleExtractE_eq]
  have h : specChosenOffset ce7 = 1 := by decide
  rw [h]

/-- C7 (amended): for every input buffer the Text-Likelihood Extractor
returns the suffix of the input starting at the chosen offset with null
bytes and control characters below 0x20 other than tab, line feed and
carriage return removed, where the chosen offset is the first position `i`
within the first 1024 bytes such that the byte at `i` is ASCII
alphanumeric or one of tab, line feed, carriage return, space, such that
`i + 100` is strictly below the buffer length, and such that the 100-byte
window at `i` passes the text-likelihood test; the offset defaults to 0
when no such position is found. -/
theorem c7_extract_spec_amended (data : List Nat) :
    simpleExtractE data = Except.ok (cleanBytes (data.drop (specChosenOffset data))) :=
  simpleExtractE_eq data

/-!
The consolidation stage (`extract_nsn_data_for_import`): parse item-master
rows into records behind a structural gate, build the part and vendor
lookup maps, and emit one output row per retained record.  Rows are lists
of string fields (the tab splitting itself is done by the csv reader, an
external collaborator).
-/

/-- Characters removed by Python `str.strip()` (the ASCII whitespace set;
the buffers handled here contain no other whitespace). -/
def pyWsChar (c : Char) : Bool :=
  c = ' ' || c = Char.ofNat 9 || c = Char.ofNat 10 || c = Char.ofNat 13 ||
  c = Char.ofNat 11 || c = Char.ofNat 12

/-- Python `str.strip()`: drop leading and trailing whitespace. -/
def pyStrip (s : String) : String :=
  String.mk (((s.data.dropWhile pyWsChar).reverse.dropWhile pyWsChar).reverse)

/-- An item-master record (one retained row of the NSN table). -/
structure ItemRec where
  nsn : String
  niin : String
  fsc : String
  itemName : String
  unitIssue : String
  unitPrice : String
  aac : String
deriving DecidableEq

/-- A part cross-reference record. -/
structure PartRec where
  niin : String
  cage : String
  partNo : String
deriving DecidableEq

/-- A vendor record from the CAGE address table. -/
structure CageRec where
  cage : String
  name : String
deriving DecidableEq

/-- The item-master row parse without the structural gate: a row with at
least 7 fields yields a record with stripped fields; the `nsn` field is
the concatenation of `fsc` and `niin` when both are non-empty and the
empty string otherwise.  The source re-checks `len(row) > k` for
`k = 1, 3, 5, 6`, which the enclosing 7-field check subsumes; the check at
`k = 11` for the accounting code is the only live one and is kept. -/
def parseItemRow (row : List String) : Option ItemRec :=
  if 7 ≤ row.length then
    let niin := pyStrip (row.getD 0 "")
    let fsc := pyStrip (row.getD 1 "")
    some { nsn := if fsc ≠ "" ∧ niin ≠ "" then fsc ++ niin else "",
           niin := niin, fsc := fsc,
           itemName := pyStrip (row.getD 3 ""),
           unitIssue := pyStrip (row.getD 5 ""),
           unitPrice := pyStrip (row.getD 6 ""),
           aac := if 11 < row.length then pyStrip (row.getD 11 "") else "" }
  else none

/-- The item-master row reader as the source performs it: the row is parsed
and retained only when the derived `nsn` is non-empty of length 13. -/
def readItemRow (row : List String) : Option ItemRec :=
  if 7 ≤ row.length then
    let niin := pyStrip (row.getD 0 "")
    let fsc := pyStrip (row.getD 1 "")
    let nsn := if fsc ≠ "" ∧ niin ≠ "" then fsc ++ niin else ""
    if nsn ≠ "" ∧ nsn.length = 13 then
      some { nsn := nsn, niin := niin, fsc := fsc,
             itemName := pyStrip (row.getD 3 ""),
             unitIssue := pyStrip (row.getD 5 ""),
             unitPrice := pyStrip (row.getD 6 ""),
             aac := if 11 < row.length then pyStrip (row.getD 11 "") else "" }
    else none
  else none

/-- The part cross-reference row reader: at least 4 fields, stripped. -/
def readPartRow (row : List String) : Option PartRec :=
  if 4 ≤ row.length then
    some { niin := pyStrip (row.getD 0 ""), cage := pyStrip (row.getD 1 ""),
           partNo := pyStrip (row.getD 2 "") }
  else none

/-- The vendor row reader: at least 2 fields, stripped. -/
def readCageRow (row : List String) : Option CageRec :=
  if 2 ≤ row.length then
    some { cage := pyStrip (row.getD 0 ""), name := pyStrip (row.getD 1 "") }
  else none

/-- Key membership in an association list keyed by strings. -/
def hasKey : List (String × List PartRec) → String → Bool
  | [], _ => false
  | kv :: m, k => decide (kv.1 = k) || hasKey m k

/-- Dictionary lookup with default `[]` (`part_map.get(niin, [])`). -/
def mapGet : List (String × List PartRec) → String → List PartRec
  | [], _ => []
  | kv :: m, k => if kv.1 = k then kv.2 else mapGet m k

/-- One iteration of building `part_map`: create the key with an empty list
when absent, then append the record to its list. -/
def addPart (m : List (String × List PartRec)) (p : PartRec) : List (String × List PartRec) :=
  if hasKey m p.niin then
    m.map (fun kv => if kv.1 = p.niin then (kv.1, kv.2 ++ [p]) else kv)
  else m ++ [(p.niin, [p])]

/-- `part_map` after reading a list of part records in order. -/
def buildPartMap (ps : List PartRec) : List (String × List PartRec) :=
  ps.foldl addPart []

/-- Key membership in the vendor map. -/
def cageHasKey : List (String × String) → String → Bool
  | [], _ => false
  | kv :: m, k => decide (kv.1 = k) || cageHasKey m k

/-- Vendor lookup with a default (`cage_map.get(cage, cage)`). -/
def cageGet : List (String × String) → String → String → String
  | [], _, d => d
  | kv :: m, k, d => if kv.1 = k then kv.2 else cageGet m k d

/-- One iteration of building `cage_map`: assignment overwrites the value
when the key is present. -/
def addCage (m : List (String × String)) (c : CageRec) : List (String × String) :=
  if cageHasKey m c.cage then
    m.map (fun kv => if kv.1 = c.cage then (kv.1, c.name) else kv)
  else m ++ [(c.cage, c.name)]

/-- `cage_map` after reading a list of vendor records in order. -/
def buildCageMap (cs : List CageRec) : List (String × String) :=
  cs.foldl addCage []

/-- Models the source price conversion (`float(price) / 100.0` rendered
with two fractional digits) under exact integer arithmetic: a field of
decimal digits is read as integer cents and printed as dollars with two
fractional digits; any other field is treated as falling to the `except`
branch and yields `0.00`.  The source computes through IEEE-754 doubles
and accepts further float syntaxes, so source and model agree only on
decimal-digit fields within double precision. -/
def digitsToNat (cs : List Char) : Nat :=
  cs.foldl (fun n c => n * 10 + (c.toNat - 48)) 0

/-- The price cell: see the note above `digitsToNat`. -/
def priceStr (s : String) : String :=
  if s ≠ "" ∧ s.data.all Char.isDigit = true then
    let cents := digitsToNat s.data
    toString (cents / 100) ++ "." ++
      (if cents % 100 < 10 then "0" else "") ++ toString (cents % 100)
  else "0.00"

/-- One consolidated output row for a retained item record: the part list
for the record's NIIN is looked up; when non-empty its first element
supplies the part number and, through the vendor map with the raw cage
code as default, the manufacturer; otherwise both are empty.  The row
layout is NSN, LIN (always empty), item name, description (always empty),
category (the FSC), manufacturer, part number, unit of issue, unit price,
accounting code. -/
def emitRow (partMap : List (String × List PartRec)) (cageMap : List (String × String))
    (item : ItemRec) : List String :=
  let parts := mapGet partMap item.niin
  let mfrPart :=
    match parts with
    | p :: _ => (cageGet cageMap p.cage p.cage, p.partNo)
    | [] => ("", "")
  [item.nsn, "", item.itemName, "", item.fsc, mfrPart.1, mfrPart.2,
   item.unitIssue, priceStr item.unitPrice, item.aac]

/-- The consolidation stage on the three decoded tables: item rows are
read behind the structural gate, the part and vendor maps are built in
row order, and one output row is emitted per retained item record, in
reading order. -/
def consolidatedRows (nsnRows partRows cageRows : List (List String)) : List (List String) :=
  (nsnRows.filterMap readItemRow).map
    (emitRow (buildPartMap (partRows.filterMap readPartRow))
      (buildCageMap (cageRows.filterMap readCageRow)))

/-- A string is empty exactly when its length is zero. -/
theorem string_eq_empty_iff_length (s : String) : s = "" ↔ s.length = 0 := by
  constructor
  · rintro rfl
    rfl
  · intro h
    apply String.ext
    have hd : s.data.length = 0 := h
    simpa using List.length_eq_zero.mp hd

/-- The gated row reader factors through the ungated parse followed by the
non-empty-components-and-length-13 filter. -/
theorem readItemRow_eq (row : List String) :
    readItemRow row = (parseItemRow row).bind
      (fun r => if r.fsc ≠ "" ∧ r.niin ≠ "" ∧ (r.fsc ++ r.niin).length = 13
        then some r else none) := by
  rw [readItemRow, parseItemRow]
  by_cases h7 : 7 ≤ row.length
  · rw [if_pos h7, if_pos h7]
    simp only [Option.some_bind]
    by_cases hc : pyStrip (row.getD 1 "") ≠ "" ∧ pyStrip (row.getD 0 "") ≠ ""
    · rw [if_pos hc]
      have hne : pyStrip (row.getD 1 "") ++ pyStrip (row.getD 0 "") ≠ "" := by
        intro he
        rw [string_eq_empty_iff_length, String.length_append] at he
        exact hc.1 ((string_eq_empty_iff_length _).mpr (by omega))
      by_cases hl : (pyStrip (row.getD 1 "") ++ pyStrip (row.getD 0 "")).length = 13
      · have hg1 : pyStrip (row.getD 1 "") ++ pyStrip (row.getD 0 "") ≠ "" ∧
            (pyStrip (row.getD 1 "") ++ pyStrip (row.getD 0 "")).length = 13 := ⟨hne, hl⟩
        have hg2 : pyStrip (row.getD 1 "") ≠ "" ∧ pyStrip (row.getD 0 "") ≠ "" ∧
            (pyStrip (row.getD 1 "") ++ pyStrip (row.getD 0 "")).length = 13 := ⟨hc.1, hc.2, hl⟩
        rw [if_pos hg1, if_pos hg2]
      · have hg1 : ¬ (pyStrip (row.getD 1 "") ++ pyStrip (row.getD 0 "") ≠ "" ∧
            (pyStrip (row.getD 1 "") ++ pyStrip (row.getD 0 "")).length = 13) :=
          fun hco => hl hco.2
        have hg2 : ¬ (pyStrip (row.getD 1 "") ≠ "" ∧ pyStrip (row.getD 0 "") ≠ "" ∧
            (pyStrip (row.getD 1 "") ++ pyStrip (row.getD 0 "")).length = 13) :=
          fun hco => hl hco.2.2
        rw [if_neg hg1, if_neg hg2]
    · rw [if_neg hc]
      have hg1 : ¬ (("" : String) ≠ "" ∧ ("" : String).length = 13) := fun hco => hco.1 rfl
      have hg2 : ¬ (pyStrip (row.getD 1 "") ≠ "" ∧ pyStrip (row.getD 0 "") ≠ "" ∧
          (pyStrip (row.getD 1 "") ++ pyStrip (row.getD 0 "")).length = 13) :=
        fun hco => hc ⟨hco.1, hco.2.1⟩
      rw [if_neg hg1, if_neg hg2]
  · rw [if_neg h7, if_neg h7]
    rfl

/-- Reading the item rows equals parsing them all and filtering by the
amended gate. -/
theorem filterMap_readItemRow (rows : List (List String)) :
    rows.filterMap readItemRow =
      (rows.filterMap parseItemRow).filter
        (fun r => decide (r.fsc ≠ "" ∧ r.niin ≠ "" ∧ (r.fsc ++ r.niin).length = 13)) := by
  induction rows with
  | nil => rfl
  | cons row rows ih =>
    rw [List.filterMap_cons, List.filterMap_cons, readItemRow_eq]
    cases hp : parseItemRow row with
    | none => simpa using ih
    | some r =>
      simp only [Option.some_bind]
      by_cases hg : r.fsc ≠ "" ∧ r.niin ≠ "" ∧ (r.fsc ++ r.niin).length = 13
      · rw [if_pos hg, List.filter_cons, if_pos (by simpa using hg)]
        rw [ih]
      · rw [if_neg hg, List.filter_cons, if_neg (by simpa using hg)]
        rw [ih]

/-- The row with an empty class code and a 13-character item identifier,
then filler fields: the concatenation has length 13 yet the source gate
rejects it. -/
def c4row : List String := ["0012345678901", "", "", "name", "", "EA", "100"]

/-- The record the ungated parse produces for `c4row`. -/
def c4rec : ItemRec :=
  { nsn := "", niin := "0012345678901", fsc := "", itemName := "name",
    unitIssue := "EA", unitPrice := "100", aac := "" }

/-- C4 counterexample: `c4row` parses to a record whose `FSC ++ NIIN`
concatenation has length exactly 13, yet the reader excludes it (the gate
additionally demands that `FSC` and `NIIN` each be non-empty), so the
13-character condition alone does not characterize inclusion and is not
the sole structural gate. -/
theorem c4_nsn_gate_counterexample :
    parseItemRow c4row = some c4rec ∧
    (c4rec.fsc ++ c4rec.niin).length = 13 ∧
    readItemRow c4row = none ∧
    consolidatedRows [c4row] [] [] = [] := by
  refine ⟨by decide, by decide, by decide, by decide⟩

/-- C4 (amended): a parsed item-master record appears in the consolidated
output exactly when its `FSC` and `NIIN` are both non-empty and their
concatenation has length exactly 13; the output consists of the emitted
rows of exactly the records passing that gate, in reading order. -/
theorem c4_nsn_gate_amended (nsnRows partRows cageRows : List (List String)) :
    consolidatedRows nsnRows partRows cageRows =
      (((nsnRows.filterMap parseItemRow).filter
        (fun r => decide (r.fsc ≠ "" ∧ r.niin ≠ "" ∧ (r.fsc ++ r.niin).length = 13))).map
        (emitRow (buildPartMap (partRows.filterMap readPartRow))
          (buildCageMap (cageRows.filterMap readCageRow)))) := by
  rw [consolidatedRows, filterMap_readItemRow]

/-- Appending a part under a key different from the one looked up leaves the
lookup unchanged. -/
theorem mapGet_map_ne (p : PartRec) (n : String) (hne : ¬ p.niin = n)
    (m : List (String × List PartRec)) :
    mapGet (m.map (fun kv => if kv.1 = p.niin then (kv.1, kv.2 ++ [p]) else kv)) n =
      mapGet m n := by
  induction m with
  | nil => rfl
  | cons kv m ih =>
    rw [List.map_cons]
    by_cases hk : kv.1 = p.niin
    · rw [if_pos hk]
      simp only [mapGet]
      rw [if_neg (fun h => hne (hk.symm.trans h)), if_neg (fun h => hne (hk.symm.trans h)), ih]
    · rw [if_neg hk]
      simp only [mapGet]
      by_cases hkn : kv.1 = n
      · rw [if_pos hkn, if_pos hkn]
      · rw [if_neg hkn, if_neg hkn, ih]

/-- Appending a part under the looked-up key, when the key is present,
appends it to the value of the lookup. -/
theorem mapGet_map_eq (p : PartRec) (n : String) (heq : p.niin = n) :
    ∀ m : List (String × List PartRec), hasKey m p.niin = true →
      mapGet (m.map (fun kv => if kv.1 = p.niin then (kv.1, kv.2 ++ [p]) else kv)) n =
        mapGet m n ++ [p] := by
  intro m
  induction m with
  | nil => intro hmem; cases hmem
  | cons kv m ih =>
    intro hmem
    rw [List.map_cons]
    by_cases hk : kv.1 = p.niin
    · rw [if_pos hk]
      simp only [mapGet]
      rw [if_pos (hk.trans heq), if_pos (hk.trans heq)]
    · rw [if_neg hk]
      simp only [mapGet]
      have hkn : ¬ kv.1 = n := fun h => hk (h.trans heq.symm)
      rw [if_neg hkn, if_neg hkn]
      apply ih
      simpa [hasKey, hk] using hmem

/-- Inserting a fresh key at the end: the lookup of any key is the old
lookup followed by the new part exactly when the keys agree. -/
theorem mapGet_append_single (p : PartRec) (n : String) :
    ∀ m : List (String × List PartRec), hasKey m p.niin = false →
      mapGet (m ++ [(p.niin, [p])]) n =
        mapGet m n ++ (if p.niin = n then [p] else []) := by
  intro m
  induction m with
  | nil =>
    intro _
    simp [mapGet]
  | cons kv m ih =>
    intro hmem
    rw [List.cons_append]
    simp only [mapGet]
    have hmem2 : decide (kv.1 = p.niin) = false ∧ hasKey m p.niin = false := by
      simpa [hasKey] using hmem
    by_cases hk : kv.1 = n
    · have hpn : ¬ p.niin = n := by
        intro he
        rw [decide_eq_false_iff_not] at hmem2
        exact hmem2.1 (hk.trans he.symm)
      rw [if_pos hk, if_pos hk, if_neg hpn, List.append_nil]
    · rw [if_neg hk, if_neg hk]
      exact ih hmem2.2

/-- One `addPart` step changes a lookup by appending the part exactly when
its key matches. -/
theorem mapGet_addPart (m : List (String × List PartRec)) (p : PartRec) (n : String) :
    mapGet (addPart m p) n = mapGet m n ++ (if p.niin = n then [p] else []) := by
  rw [addPart]
  by_cases hmem : hasKey m p.niin = true
  · rw [if_pos hmem]
    by_cases heq : p.niin = n
    · rw [if_pos heq, mapGet_map_eq p n heq m hmem]
    · rw [if_neg heq, mapGet_map_ne p n heq m, List.append_nil]
  · rw [if_neg hmem]
    exact mapGet_append_single p n m (by simpa using hmem)

/-- Folding `addPart` over part records: any lookup in the result is the
lookup in the accumulator followed by the records carrying the key, in
reading order. -/
theorem mapGet_foldl_addPart (n : String) :
    ∀ (ps : List PartRec) (m : List (String × List PartRec)),
      mapGet (ps.foldl addPart m) n =
        mapGet m n ++ ps.filter (fun q => decide (q.niin = n)) := by
  intro ps
  induction ps with
  | nil => intro m; simp
  | cons p ps ih =>
    intro m
    rw [List.foldl_cons, ih, mapGet_addPart, List.filter_cons]
    by_cases heq : p.niin = n
    · simp [heq]
    · simp [heq]

/-- The part map lookup equals the order-preserving selection of the part
records carrying the key. -/
theorem mapGet_buildPartMap (ps : List PartRec) (n : String) :
    mapGet (buildPartMap ps) n = ps.filter (fun q => decide (q.niin = n)) := by
  rw [buildPartMap, mapGet_foldl_addPart]
  rfl

/-- C8: join precedence during consolidation.  When no part record carries
the item record's NIIN, the manufacturer and part-number cells (positions
5 and 6) are both empty; when at least one does, the first such record in
insertion order supplies the part number, and the manufacturer is the
vendor-map lookup of its cage code defaulting to the raw cage code. -/
theorem c8_join_precedence (parts : List PartRec) (cages : List CageRec) (item : ItemRec) :
    (parts.filter (fun q => decide (q.niin = item.niin)) = [] →
      (emitRow (buildPartMap parts) (buildCageMap cages) item).getD 5 "" = "" ∧
      (emitRow (buildPartMap parts) (buildCageMap cages) item).getD 6 "" = "") ∧
    (∀ p rest, parts.filter (fun q => decide (q.niin = item.niin)) = p :: rest →
      (emitRow (buildPartMap parts) (buildCageMap cages) item).getD 5 "" =
        cageGet (buildCageMap cages) p.cage p.cage ∧
      (emitRow (buildPartMap parts) (buildCageMap cages) item).getD 6 "" = p.partNo) := by
  constructor
  · intro h
    constructor <;> simp [emitRow, mapGet_buildPartMap, h, List.getD]
  · intro p rest h
    constructor <;> simp [emitRow, mapGet_buildPartMap, h, List.getD]

/-- The first of the two part records sharing a NIIN. -/
def c8partA : PartRec := { niin := "001234567", cage := "A", partNo := "X" }

/-- The second of the two part records sharing a NIIN. -/
def c8partB : PartRec := { niin := "001234567", cage := "B", partNo := "Y" }

/-- An item record with the shared NIIN. -/
def c8item : ItemRec :=
  { nsn := "5310001234567", niin := "001234567", fsc := "5310", itemName := "",
    unitIssue := "", unitPrice := "", aac := "" }

/-- Witness for C8: with parts cage `A` part `X` then cage `B` part `Y` on
the same NIIN and an empty vendor table, the row resolves manufacturer
from cage `A` (falling back to the raw code) and part number `X`. -/
theorem c8_join_precedence_witness :
    (emitRow (buildPartMap [c8partA, c8partB]) (buildCageMap []) c8item).getD 5 "" = "A" ∧
    (emitRow (buildPartMap [c8partA, c8partB]) (buildCageMap []) c8item).getD 6 "" = "X" := by
  have h := (c8_join_precedence [c8partA, c8partB] [] c8item).2 c8partA [c8partB] (by decide)
  exact ⟨h.1.trans (by decide), h.2.trans (by decide)⟩

/-- C10: every row of the consolidated output carries, in its CATEGORY
column (position 4), exactly the FSC of the item record it was emitted
for. -/
theorem c10_category_is_fsc (nsnRows partRows cageRows : List (List String))
    (row : List String) (h : row ∈ consolidatedRows nsnRows partRows cageRows) :
    ∃ item ∈ nsnRows.filterMap readItemRow, row.getD 4 "" = item.fsc := by
  rw [consolidatedRows] at h
  obtain ⟨item, hmem, heq⟩ := List.mem_map.mp h
  refine ⟨item, hmem, ?_⟩
  rw [← heq]
  rfl

/-- A valid item-master row: NIIN of 9 digits, FSC of 4 digits. -/
def c10row : List String := ["001234567", "5310", "", "WIDGET", "", "EA", "12345"]

/-- Witness for C10: the single consolidated row of `c10row` carries the FSC
`5310` in its CATEGORY column. -/
theorem c10_category_is_fsc_witness :
    ∃ item ∈ [c10row].filterMap readItemRow,
      ((consolidatedRows [c10row] [] []).getD 0 []).getD 4 "" = item.fsc :=
  c10_category_is_fsc [c10row] [] [] ((consolidatedRows [c10row] [] []).getD 0 [])
    (by decide)
